import Mathlib

/-!
Shallow embedding of the record-processing pipeline of src/main.py
(class FileProcessor: read_file, _read_csv_file, _read_xml_file,
process_data, _find_duplicates, _count_floors_by_city).

Python dicts are modelled as association lists in insertion order with
unique keys; machine strings are Lean strings; a value that may be the
Python None is an Option String; a Python exception is a PyError value
and a fallible function returns Except PyError.
-/

/-- A parsed record: a Python dict from field name to field value, kept in
insertion order.  A value of none models the Python None. -/
abbrev Record := List (String × Option String)

/-- A Python exception as far as the pipeline distinguishes them:
ValueError (unsupported extension), RuntimeError (the wrapper the two
readers raise, message included), KeyError (raised by the aggregator when
a bucket is missing, carrying the offending key). -/
inductive PyError where
  | valueError : String → PyError
  | runtimeError : String → PyError
  | keyError : Nat → PyError
deriving DecidableEq, Repr

/-- The exception class alone, which is what an except clause of a caller
can dispatch on. -/
inductive ErrKind where
  | valueK
  | runtimeK
  | keyK
deriving DecidableEq, Repr

def PyError.kind : PyError → ErrKind
  | .valueError _ => .valueK
  | .runtimeError _ => .runtimeK
  | .keyError _ => .keyK

/-- record.get(k): the value of the first binding of k; an absent key and a
key bound to None both give none, as with the Python dict.get default. -/
def getVal : Record → String → Option String
  | [], _ => none
  | (k, v) :: rest, key => if k = key then v else getVal rest key

/-- Python truthiness of the optional strings the aggregator reads:
None and the empty string are falsy. -/
def truthy : Option String → Bool
  | none => false
  | some s => !(s == "")

/-- The Python expression a or b over two optional strings. -/
def pyOr (a b : Option String) : Option String := if truthy a then a else b

/-- str.isdigit restricted to ASCII decimal digits, the only digit strings
the pipeline meets: nonempty and every character a decimal digit. -/
def isDigits (s : String) : Bool := !(s == "") && s.data.all Char.isDigit

def optDigits : Option String → Bool
  | none => false
  | some s => isDigits s

/-- int(s) for a string of decimal digits. -/
def pyInt (s : String) : Nat := s.data.foldl (fun n c => 10 * n + (c.toNat - 48)) 0

/-- The inner dict the aggregator seeds per city: the five fixed buckets. -/
structure FloorCounts where
  b1 : Nat
  b2 : Nat
  b3 : Nat
  b4 : Nat
  b5 : Nat
deriving DecidableEq, Repr

def initCounts : FloorCounts := ⟨0, 0, 0, 0, 0⟩

/-- Reading bucket f of the inner dict; keys other than 1..5 do not occur
in a built summary, so they read as 0 here. -/
def FloorCounts.get (fc : FloorCounts) : Nat → Nat
  | 1 => fc.b1
  | 2 => fc.b2
  | 3 => fc.b3
  | 4 => fc.b4
  | 5 => fc.b5
  | _ => 0

/-- d[n] += 1 on the inner dict: succeeds exactly on the five present keys,
none models the KeyError on any other integer. -/
def FloorCounts.inc (fc : FloorCounts) : Nat → Option FloorCounts
  | 1 => some { fc with b1 := fc.b1 + 1 }
  | 2 => some { fc with b2 := fc.b2 + 1 }
  | 3 => some { fc with b3 := fc.b3 + 1 }
  | 4 => some { fc with b4 := fc.b4 + 1 }
  | 5 => some { fc with b5 := fc.b5 + 1 }
  | _ => none

/-- The outer defaultdict, city name to inner bucket dict, in insertion
order. -/
abbrev CitySummary := List (String × FloorCounts)

/-- Bucket f of city c in the summary; an absent city reads as 0. -/
def bucketValue : CitySummary → String → Nat → Nat
  | [], _, _ => 0
  | (c0, fc) :: rest, c, f => if c0 = c then fc.get f else bucketValue rest c f

/-- city_summary[city][n] += 1: the defaultdict materialises the city entry
(appending it in insertion order) and the inner increment raises KeyError
when n is outside 1..5. -/
def bumpCity : CitySummary → String → Nat → Except PyError CitySummary
  | [], c, n =>
    match initCounts.inc n with
    | some fc => .ok [(c, fc)]
    | none => .error (.keyError n)
  | (c0, fc0) :: rest, c, n =>
    if c0 = c then
      match fc0.inc n with
      | some fc => .ok ((c0, fc) :: rest)
      | none => .error (.keyError n)
    else
      match bumpCity rest c n with
      | .ok rest2 => .ok ((c0, fc0) :: rest2)
      | .error e => .error e

/-- record.get("city") in _count_floors_by_city. -/
def recCity (r : Record) : Option String := getVal r "city"

/-- record.get("floor") or record.get("floors"). -/
def recFloors (r : Record) : Option String := pyOr (getVal r "floor") (getVal r "floors")

/-- The guard: if city and floors and floors.isdigit(). -/
def recQual (r : Record) : Bool := truthy (recCity r) && truthy (recFloors r) && optDigits (recFloors r)

def recCityStr (r : Record) : String := (recCity r).getD ""

def recFloorVal (r : Record) : Nat := pyInt ((recFloors r).getD "")

/-- The loop body of _count_floors_by_city over the remaining records,
threading the summary built so far; a KeyError aborts the whole call. -/
def countAux : CitySummary → List Record → Except PyError CitySummary
  | acc, [] => .ok acc
  | acc, r :: rest =>
    if recQual r then
      match bumpCity acc (recCityStr r) (recFloorVal r) with
      | .ok acc2 => countAux acc2 rest
      | .error e => .error e
    else countAux acc rest

/-- _count_floors_by_city. -/
def countFloorsByCity (data : List Record) : Except PyError CitySummary :=
  countAux [] data

/-- One canonicalised pair of the signature: None becomes the literal
string null. -/
def normalizePair (p : String × Option String) : String × String :=
  (p.1, p.2.getD "null")

/-- Strict lexicographic comparison of windows of characters by code point,
the order Python uses on strings. -/
def lexLt : List Char → List Char → Bool
  | _, [] => false
  | [], _ :: _ => true
  | a :: as, b :: bs => if a = b then lexLt as bs else decide (a < b)

def strLt (a b : String) : Bool := lexLt a.data b.data

def strLe (a b : String) : Bool := strLt a b || decide (a = b)

theorem lexLt_irrefl : ∀ l : List Char, lexLt l l = false
  | [] => rfl
  | a :: as => by simp [lexLt, lexLt_irrefl as]

theorem lexLt_trans : ∀ {a b c : List Char},
    lexLt a b = true → lexLt b c = true → lexLt a c = true
  | _, _, [], _, hbc => by simp [lexLt] at hbc
  | _, [], _ :: _, hab, _ => by simp [lexLt] at hab
  | [], _ :: _, _ :: _, _, _ => rfl
  | a :: as, b :: bs, c :: cs, hab, hbc => by
    simp only [lexLt] at *
    by_cases hab1 : a = b <;> by_cases hbc1 : b = c
    · subst hab1; subst hbc1
      simp_all
      exact lexLt_trans hab hbc
    · subst hab1
      simp_all
    · subst hbc1
      simp_all
    · rw [if_neg hab1] at hab
      rw [if_neg hbc1] at hbc
      have hac : a < c := lt_trans (of_decide_eq_true hab) (of_decide_eq_true hbc)
      rw [if_neg (ne_of_lt hac)]
      exact decide_eq_true hac

theorem lexLt_asymm : ∀ {a b : List Char}, lexLt a b = true → lexLt b a = false
  | _, [], hab => by simp [lexLt] at hab
  | [], _ :: _, _ => rfl
  | a :: as, b :: bs, hab => by
    simp only [lexLt] at *
    by_cases h1 : a = b
    · subst h1
      simp_all
      exact lexLt_asymm hab
    · rw [if_neg h1] at hab
      rw [if_neg (Ne.symm h1)]
      exact decide_eq_false (not_lt_of_lt (of_decide_eq_true hab))

theorem lexLt_connex : ∀ {a b : List Char},
    lexLt a b = false → lexLt b a = false → a = b
  | [], [], _, _ => rfl
  | _ :: _, [], _, hba => by simp [lexLt] at hba
  | [], _ :: _, hab, _ => by simp [lexLt] at hab
  | a :: as, b :: bs, hab, hba => by
    simp only [lexLt] at *
    by_cases h1 : a = b
    · subst h1
      simp_all
      exact lexLt_connex hab hba
    · rw [if_neg h1] at hab
      rw [if_neg (Ne.symm h1)] at hba
      have h2 : ¬ a < b := of_decide_eq_false hab
      have h3 : ¬ b < a := of_decide_eq_false hba
      exact absurd (le_antisymm (le_of_not_lt h3) (le_of_not_lt h2)) h1

theorem strLt_trans {a b c : String} (h1 : strLt a b = true) (h2 : strLt b c = true) :
    strLt a c = true := lexLt_trans h1 h2

theorem strLt_asymm {a b : String} (h : strLt a b = true) : strLt b a = false :=
  lexLt_asymm h

theorem strLt_connex {a b : String} (h1 : strLt a b = false) (h2 : strLt b a = false) :
    a = b := by
  cases a
  cases b
  exact congrArg String.mk (lexLt_connex h1 h2)

theorem strLt_irrefl (a : String) : strLt a a = false := lexLt_irrefl a.data

/-- The ascending order Python sorted uses on the (name, value) pairs:
lexicographic tuple comparison over code-point string comparison. -/
def pairLe (a b : String × String) : Prop :=
  strLt a.1 b.1 = true ∨ (a.1 = b.1 ∧ strLe a.2 b.2 = true)

instance : DecidableRel pairLe := fun a b => by
  unfold pairLe
  exact inferInstance

theorem strLe_total (a b : String) : strLe a b = true ∨ strLe b a = true := by
  unfold strLe
  cases h1 : strLt a b
  · cases h2 : strLt b a
    · exact Or.inl (by simp [strLt_connex h1 h2])
    · exact Or.inr (by simp)
  · exact Or.inl (by simp)

theorem strLe_trans {a b c : String} (h1 : strLe a b = true) (h2 : strLe b c = true) :
    strLe a c = true := by
  unfold strLe at *
  rcases Bool.or_eq_true_iff.mp h1 with h1 | h1
  · rcases Bool.or_eq_true_iff.mp h2 with h2 | h2
    · simp [strLt_trans h1 h2]
    · have := of_decide_eq_true h2
      subst this
      simp [h1]
  · have := of_decide_eq_true h1
    subst this
    simp [h2]

theorem strLe_antisymm {a b : String} (h1 : strLe a b = true) (h2 : strLe b a = true) :
    a = b := by
  unfold strLe at *
  rcases Bool.or_eq_true_iff.mp h1 with h1 | h1
  · rcases Bool.or_eq_true_iff.mp h2 with h2 | h2
    · exact absurd h2 (by simp [strLt_asymm h1])
    · exact (of_decide_eq_true h2).symm
  · exact of_decide_eq_true h1

instance : IsTotal (String × String) pairLe where
  total a b := by
    unfold pairLe
    cases h1 : strLt a.1 b.1
    · cases h2 : strLt b.1 a.1
      · have he : a.1 = b.1 := strLt_connex h1 h2
        rcases strLe_total a.2 b.2 with h3 | h3
        · exact Or.inl (Or.inr ⟨he, h3⟩)
        · exact Or.inr (Or.inr ⟨he.symm, h3⟩)
      · exact Or.inr (Or.inl rfl)
    · exact Or.inl (Or.inl rfl)

instance : IsTrans (String × String) pairLe where
  trans a b c hab hbc := by
    rcases hab with h1 | ⟨e1, l1⟩
    · rcases hbc with h2 | ⟨e2, _⟩
      · exact Or.inl (strLt_trans h1 h2)
      · exact Or.inl (e2 ▸ h1)
    · rcases hbc with h2 | ⟨e2, l2⟩
      · exact Or.inl (e1 ▸ h2)
      · exact Or.inr ⟨e1.trans e2, strLe_trans l1 l2⟩

instance : IsAntisymm (String × String) pairLe where
  antisymm a b hab hba := by
    rcases hab with h1 | ⟨e1, l1⟩
    · rcases hba with h2 | ⟨e2, _⟩
      · exact absurd h2 (by simp [strLt_asymm h1])
      · exact absurd (e2 ▸ h1) (by simp [strLt_irrefl])
    · rcases hba with h2 | ⟨e2, l2⟩
      · exact absurd (e1 ▸ h2) (by simp [strLt_irrefl])
      · exact Prod.ext e1 (strLe_antisymm l1 l2)

instance exceptDecEq {ε α : Type} [DecidableEq ε] [DecidableEq α] :
    DecidableEq (Except ε α)
  | .error a, .error b =>
    match decEq a b with
    | isTrue h => isTrue (by rw [h])
    | isFalse h => isFalse (by intro hh; cases hh; exact h rfl)
  | .error _, .ok _ => isFalse (by intro h; cases h)
  | .ok _, .error _ => isFalse (by intro h; cases h)
  | .ok a, .ok b =>
    match decEq a b with
    | isTrue h => isTrue (by rw [h])
    | isFalse h => isFalse (by intro hh; cases hh; exact h rfl)

/-- The canonical signature of a record: tuple(sorted((k, v if v is not
None else "null") for k, v in item.items())). -/
def signature (r : Record) : List (String × String) :=
  List.insertionSort pairLe (r.map normalizePair)

/-- Adding one element to a Counter: the first matching key is incremented
in place, a new key is appended, preserving first-seen order. -/
def counterAdd : List (List (String × String) × Nat) → List (String × String) →
    List (List (String × String) × Nat)
  | [], s => [(s, 1)]
  | (k, n) :: rest, s => if k = s then (k, n + 1) :: rest else (k, n) :: counterAdd rest s

/-- Counter(signatures), as the insertion-ordered dict Python builds. -/
def counter (l : List (List (String × String))) : List (List (String × String) × Nat) :=
  l.foldl counterAdd []

/-- Rebuilding a dict from a list of pairs, with Python dict insertion
semantics (a repeated key overwrites in place). -/
def dictInsert : List (String × String) → String × String → List (String × String)
  | [], p => [p]
  | (k, v) :: rest, p => if k = p.1 then (k, p.2) :: rest else (k, v) :: dictInsert rest p

def dictOfPairs (l : List (String × String)) : List (String × String) :=
  l.foldl dictInsert []

/-- _find_duplicates: one reconstructed dict per signature of count > 1,
in Counter (first-seen) order. -/
def findDuplicates (data : List Record) : List (List (String × String)) :=
  ((counter (data.map signature)).filter fun p => 1 < p.2).map fun p => dictOfPairs p.1

/-- process_data: duplicates first, then the city summary; a KeyError in
the aggregation aborts the call. -/
def process_data (data : List Record) :
    Except PyError (List (List (String × String)) × CitySummary) :=
  match countFloorsByCity data with
  | .ok s => .ok (findDuplicates data, s)
  | .error e => .error e

def csvErrPre : String := "Ошибка при чтении файла CSV: "

def xmlErrPre : String := "Ошибка при чтении файла XML: "

/-- The AttributeError message of stripping the None that DictReader fills
in for a ragged row (for the overflow list the cause text differs, the
wrapped error class does not). -/
def noneStripMsg : String := "NoneType object has no attribute strip"

def unsupportedMsg : String := "Неверный формат файла. Поддерживаются только CSV и XML."

/-- What opening the path yields for the CSV branch: an OS-level failure
with its message, or the semicolon-split rows the csv module hands to
DictReader, header row first. -/
inductive CsvSource where
  | ioError : String → CsvSource
  | rows : List (List String) → CsvSource

/-- What the XML branch meets: an OS-level failure, readable but malformed
content, or the attribute sets of the item children of the root in
document order. -/
inductive XmlSource where
  | ioError : String → XmlSource
  | parseError : String → XmlSource
  | items : List (List (String × String)) → XmlSource

/-- A value of the raw dict DictReader builds for one row: a cell string,
the restval None padding a short row, or the restkey list carrying the
overflow of a long row. -/
inductive RawVal where
  | cell : String → RawVal
  | noneV : RawVal
  | extra : List String → RawVal

/-- dict(zip(fieldnames, row)) with the DictReader padding: missing cells
are filled with the restval None, surplus cells go under the restkey
None, appended last. -/
def rawRow : List String → List String → List (Option String × RawVal)
  | [], [] => []
  | h :: hs, [] => (some h, .noneV) :: rawRow hs []
  | [], v :: vs => [(none, .extra (v :: vs))]
  | h :: hs, v :: vs => (some h, .cell v) :: rawRow hs vs

/-- str.strip(): remove leading and trailing whitespace. -/
def pyStrip (s : String) : String :=
  ⟨((s.data.dropWhile Char.isWhitespace).reverse.dropWhile Char.isWhitespace).reverse⟩

/-- Stripping every key and value of the raw dict; stripping the restkey
None or a restval None raises AttributeError, which the handler of
_read_csv_file wraps into its RuntimeError. -/
def cleanPairs : List (Option String × RawVal) → Except PyError (List (String × String))
  | [] => .ok []
  | (some k, .cell v) :: rest =>
    match cleanPairs rest with
    | .ok ps => .ok ((pyStrip k, pyStrip v) :: ps)
    | .error e => .error e
  | _ :: _ => .error (.runtimeError (csvErrPre ++ noneStripMsg))

/-- clean_row: the stripped pairs rebuilt into a dict. -/
def cleanRow (header row : List String) : Except PyError (List (String × String)) :=
  match cleanPairs (rawRow header row) with
  | .ok ps => .ok (dictOfPairs ps)
  | .error e => .error e

/-- The row loop of _read_csv_file over the data rows; DictReader skips
fully blank rows. -/
def readRows (header : List String) : List (List String) → Except PyError (List Record)
  | [] => .ok []
  | row :: rest =>
    if row.isEmpty then readRows header rest
    else
      match cleanRow header row with
      | .error e => .error e
      | .ok cr =>
        match readRows header rest with
        | .error e => .error e
        | .ok others => .ok ((cr.map fun p => (p.1, some p.2)) :: others)

/-- _read_csv_file: any exception inside the with-block is wrapped into a
RuntimeError; an empty file has no fieldnames and yields no records. -/
def readCsvFile : CsvSource → Except PyError (List Record)
  | .ioError c => .error (.runtimeError (csvErrPre ++ c))
  | .rows [] => .ok []
  | .rows (header :: rest) => readRows header rest

/-- _read_xml_file: both an I/O failure and malformed content land in the
same except clause and are wrapped into the same RuntimeError; well-formed
content gives one record per item element from its attribute dict. -/
def readXmlFile : XmlSource → Except PyError (List Record)
  | .ioError c => .error (.runtimeError (xmlErrPre ++ c))
  | .parseError c => .error (.runtimeError (xmlErrPre ++ c))
  | .items its => .ok (its.map fun attrs => attrs.map fun p => (p.1, some p.2))

/-- str.endswith, computed on the reversed character lists. -/
def revStarts : List Char → List Char → Bool
  | _, [] => true
  | [], _ :: _ => false
  | a :: as, b :: bs => decide (a = b) && revStarts as bs

def strEndsWith (s t : String) : Bool := revStarts s.data.reverse t.data.reverse

/-- The mutable state of a FileProcessor instance. -/
structure FileProcessor where
  file_path : String
  data : List Record
deriving DecidableEq, Repr

/-- read_file: dispatch on the extension alone; the two reader sources
stand for what the file system would hand whichever reader runs.  On
success self.data is overwritten with the parsed records; the unsupported
extension raises before any read is attempted. -/
def read_file (p : FileProcessor) (csvF : CsvSource) (xmlF : XmlSource) :
    Except PyError FileProcessor :=
  if strEndsWith p.file_path ".csv" then
    match readCsvFile csvF with
    | .ok d => .ok { p with data := d }
    | .error e => .error e
  else if strEndsWith p.file_path ".xml" then
    match readXmlFile xmlF with
    | .ok d => .ok { p with data := d }
    | .error e => .error e
  else .error (.valueError unsupportedMsg)

/-- One request of the surrounding loop against processor state p:
read_file, then process_data over the freshly parsed records. -/
def runWith (p : FileProcessor) (csvF : CsvSource) (xmlF : XmlSource) :
    Except PyError (List (List (String × String)) × CitySummary) :=
  match read_file p csvF xmlF with
  | .ok p2 => process_data p2.data
  | .error e => .error e

/-- The Processing Façade as the loop body uses it: a fresh FileProcessor
for the path, read, process. -/
def runFacade (path : String) (csvF : CsvSource) (xmlF : XmlSource) :
    Except PyError (List (List (String × String)) × CitySummary) :=
  runWith ⟨path, []⟩ csvF xmlF

/-- The signatures of the duplicate groups _find_duplicates emits, in the
order it emits them. -/
def dupSigs (data : List Record) : List (List (String × String)) :=
  ((counter (data.map signature)).filter fun p => 1 < p.2).map Prod.fst

/-- The count a Counter association list holds for a key (0 when absent). -/
def cntOf : List (List (String × String) × Nat) → List (String × String) → Nat
  | [], _ => 0
  | (k, n) :: rest, s => if k = s then n else cntOf rest s

/-- The elements of the input not yet in seen, in order of first
occurrence, each once. -/
def firstSeenAux (seen : List (List (String × String))) :
    List (List (String × String)) → List (List (String × String))
  | [] => []
  | s :: rest =>
    if s ∈ seen then firstSeenAux seen rest else s :: firstSeenAux (s :: seen) rest

/-- The distinct signatures of a dataset in order of first occurrence. -/
def firstSeen (l : List (List (String × String))) : List (List (String × String)) :=
  firstSeenAux [] l

/-- Whether _count_floors_by_city counts the record towards bucket f of
city c: the guard holds, the city field reads c and the floor value reads
the integer f. -/
def qualifies (c : String) (f : Nat) (r : Record) : Bool :=
  recQual r && decide (recCityStr r = c) && decide (recFloorVal r = f)

/-- C7: a path whose extension is neither .csv nor .xml makes read_file
fail with the unsupported-format ValueError whatever the file system
would hand either reader (so before any I/O), and the facade run yields
no records, duplicates or summary. -/
theorem unsupported_extension_fails (path : String) (d : List Record)
    (csvF : CsvSource) (xmlF : XmlSource)
    (h1 : strEndsWith path ".csv" = false) (h2 : strEndsWith path ".xml" = false) :
    read_file ⟨path, d⟩ csvF xmlF = .error (.valueError unsupportedMsg) ∧
    runFacade path csvF xmlF = .error (.valueError unsupportedMsg) := by
  constructor
  · unfold read_file
    simp [h1, h2]
  · unfold runFacade runWith read_file
    simp [h1, h2]

/-- Witness for C7 at the path a.txt. -/
theorem unsupported_extension_witness :
    read_file ⟨"a.txt", []⟩ (.rows []) (.items []) = .error (.valueError unsupportedMsg) ∧
    runFacade "a.txt" (.rows []) (.items []) = .error (.valueError unsupportedMsg) :=
  unsupported_extension_fails "a.txt" [] (.rows []) (.items []) (by decide) (by decide)

/-- C9: the facade output is a function of the path and the file content
alone: whatever records a previous run left in self.data, read_file
overwrites them, so a second run on unchanged content returns identical
duplicates and summary and no state is carried over. -/
theorem facade_idempotent (path : String) (csvF : CsvSource) (xmlF : XmlSource)
    (d1 d2 : List Record) :
    runWith ⟨path, d1⟩ csvF xmlF = runWith ⟨path, d2⟩ csvF xmlF := by
  unfold runWith read_file
  cases hc : strEndsWith path ".csv"
  · cases hx : strEndsWith path ".xml"
    · simp [hc, hx]
    · cases hr : readXmlFile xmlF <;> simp [hc, hx, hr]
  · cases hr : readCsvFile csvF <;> simp [hc, hr]

/-- C8: the round trip on the CSV with header city;floor and rows A;1,
A;1, B;2: exactly one duplicate group, and the summary carrying all five
buckets per city with default zero. -/
theorem csv_round_trip :
    runFacade "data.csv"
      (.rows [["city", "floor"], ["A", "1"], ["A", "1"], ["B", "2"]]) (.items []) =
    .ok ([[("city", "A"), ("floor", "1")]],
      [("A", ⟨2, 0, 0, 0, 0⟩), ("B", ⟨0, 1, 0, 0, 0⟩)]) := by decide

/-- C6 is refuted: an I/O failure and a malformed-XML failure with the
same stringified cause surface as the very same RuntimeError value, so
the caller cannot tell them apart. -/
theorem error_kinds_cex :
    readXmlFile (.ioError "boom") = readXmlFile (.parseError "boom") := rfl

/-- C6 (amended): the unsupported-format failure is a ValueError,
distinguishable from both reader failures, but an I/O failure and a
malformed-XML failure are wrapped into the one RuntimeError class, so
those two are not distinguishable by error class. -/
theorem error_kinds_surfaced (cio cpa cc : String) :
    readXmlFile (.ioError cio) = .error (.runtimeError (xmlErrPre ++ cio)) ∧
    readXmlFile (.parseError cpa) = .error (.runtimeError (xmlErrPre ++ cpa)) ∧
    readCsvFile (.ioError cc) = .error (.runtimeError (csvErrPre ++ cc)) ∧
    (PyError.runtimeError (xmlErrPre ++ cio)).kind =
      (PyError.runtimeError (xmlErrPre ++ cpa)).kind ∧
    (PyError.valueError unsupportedMsg).kind ≠
      (PyError.runtimeError (xmlErrPre ++ cio)).kind :=
  ⟨rfl, rfl, rfl, rfl, fun h => ErrKind.noConfusion h⟩

/-- C1 is refuted: a record with non-empty city and the all-digit floor
value 6 is not silently skipped; the aggregation aborts with a KeyError
instead of completing on the remaining records. -/
theorem floor_out_of_range_cex :
    countFloorsByCity [[("city", some "A"), ("floor", some "6")]] =
      .error (.keyError 6) := by decide

/-- C4 is refuted: for the record with city B and floor 0 the right side
of the claimed equivalence holds (city non-empty, all-digit floor), yet
the aggregator counts the record nowhere: it produces no summary at all
but raises a KeyError. -/
theorem aggregation_bucket_counts_cex :
    countFloorsByCity [[("city", some "B"), ("floor", some "0")]] =
      .error (.keyError 0) := by decide

/-- C5 is refuted: a short data row does not yield a record with missing
keys; the whole read fails, because DictReader fills the missing cell
with None and the strip cleanup raises on it. -/
theorem ragged_csv_fails_cex :
    readCsvFile (.rows [["city", "floor"], ["A"]]) =
      .error (.runtimeError (csvErrPre ++ noneStripMsg)) := by decide

theorem initCounts_get (f : Nat) : initCounts.get f = 0 := by
  rcases f with _ | _ | _ | _ | _ | _ | m <;> rfl

theorem inc_eq_none (fc : FloorCounts) (n : Nat) (h : n = 0 ∨ 5 < n) :
    fc.inc n = none := by
  rcases n with _ | _ | _ | _ | _ | _ | m <;> first
    | rfl
    | (exfalso; omega)

theorem inc_get (fc fc2 : FloorCounts) (n : Nat) (h : fc.inc n = some fc2) (f : Nat) :
    fc2.get f = fc.get f + (if f = n then 1 else 0) := by
  rcases n with _ | _ | _ | _ | _ | _ | m <;>
    simp only [FloorCounts.inc, Option.some.injEq, reduceCtorEq] at h <;>
    try exact absurd h (by simp)
  all_goals subst h
  all_goals rcases f with _ | _ | _ | _ | _ | _ | k <;> simp [FloorCounts.get]

theorem bumpCity_err (acc : CitySummary) (c : String) (n : Nat) (h : n = 0 ∨ 5 < n) :
    bumpCity acc c n = .error (.keyError n) := by
  induction acc with
  | nil => simp [bumpCity, inc_eq_none _ _ h]
  | cons p rest ih =>
    rcases p with ⟨c0, fc0⟩
    by_cases hc : c0 = c <;> simp [bumpCity, hc, inc_eq_none _ _ h, ih]

theorem bumpCity_ok : ∀ (acc : CitySummary) (acc2 : CitySummary) (c : String) (n : Nat),
    bumpCity acc c n = .ok acc2 → ∀ (c2 : String) (f : Nat),
    bucketValue acc2 c2 f = bucketValue acc c2 f + (if c2 = c ∧ f = n then 1 else 0)
  | [], acc2, c, n, h, c2, f => by
    simp only [bumpCity] at h
    cases hi : initCounts.inc n with
    | none => rw [hi] at h; cases h
    | some fc =>
      rw [hi] at h
      cases h
      by_cases hc : c = c2
      · subst hc
        simp [bucketValue, inc_get _ _ _ hi f, initCounts_get]
      · have hne : ¬ (c2 = c ∧ f = n) := fun hh => hc hh.1.symm
        simp [bucketValue, hc, hne]
  | (c0, fc0) :: rest, acc2, c, n, h, c2, f => by
    simp only [bumpCity] at h
    by_cases hc : c0 = c
    · rw [if_pos hc] at h
      cases hi : fc0.inc n with
      | none => rw [hi] at h; cases h
      | some fc =>
        rw [hi] at h
        cases h
        by_cases hc2 : c0 = c2
        · subst hc2
          simp [bucketValue, inc_get _ _ _ hi f, hc]
        · have hne : ¬ (c2 = c ∧ f = n) := fun hh => hc2 (hc.trans hh.1.symm)
          simp [bucketValue, hc2, hne]
    · rw [if_neg hc] at h
      cases hb : bumpCity rest c n with
      | error e => rw [hb] at h; cases h
      | ok rest2 =>
        rw [hb] at h
        cases h
        by_cases hc2 : c0 = c2
        · subst hc2
          have hne : ¬ (c0 = c ∧ f = n) := fun hh => hc hh.1
          simp [bucketValue, hne]
        · simp [bucketValue, hc2, bumpCity_ok rest rest2 c n hb c2 f]

theorem countAux_ok : ∀ (data : List Record) (acc s : CitySummary),
    countAux acc data = .ok s → ∀ (c : String) (f : Nat),
    bucketValue s c f = bucketValue acc c f + (data.filter (qualifies c f)).length
  | [], acc, s, h, c, f => by
    simp only [countAux] at h
    cases h
    simp [List.filter]
  | r :: rest, acc, s, h, c, f => by
    simp only [countAux] at h
    by_cases hq : recQual r
    · rw [if_pos hq] at h
      cases hb : bumpCity acc (recCityStr r) (recFloorVal r) with
      | error e => rw [hb] at h; cases h
      | ok acc2 =>
        rw [hb] at h
        have ih := countAux_ok rest acc2 s h c f
        have hbk := bumpCity_ok acc acc2 (recCityStr r) (recFloorVal r) hb c f
        rw [List.filter_cons]
        by_cases hmatch : recCityStr r = c ∧ recFloorVal r = f
        · have : qualifies c f r = true := by
            simp [qualifies, hq, hmatch.1, hmatch.2]
          rw [if_pos this]
          simp only [List.length_cons]
          rw [ih, hbk, if_pos ⟨hmatch.1.symm, hmatch.2.symm⟩]
          omega
        · have : qualifies c f r = false := by
            simp only [qualifies, hq, Bool.true_and, Bool.and_eq_false_iff,
              decide_eq_false_iff_not]
            by_cases h1 : recCityStr r = c
            · exact Or.inr fun h2 => hmatch ⟨h1, h2⟩
            · exact Or.inl h1
          rw [if_neg (by simp [this])]
          rw [ih, hbk, if_neg (fun hh => hmatch ⟨hh.1.symm, hh.2.symm⟩)]
          omega
    · rw [if_neg hq] at h
      have ih := countAux_ok rest acc s h c f
      have : qualifies c f r = false := by
        simp [qualifies, hq]
      rw [List.filter_cons, if_neg (by simp [this]), ih]

/-- The per-bucket content of a successful aggregation: bucket f of city c
holds exactly the number of records whose guard passed with city c and
floor value f. -/
theorem countFloors_ok (data : List Record) (s : CitySummary)
    (h : countFloorsByCity data = .ok s) (c : String) (f : Nat) :
    bucketValue s c f = (data.filter (qualifies c f)).length := by
  have := countAux_ok data [] s h c f
  simpa [bucketValue] using this

/-- C1 (amended): a record whose city is present and non-empty and whose
floor value is an all-digit string denoting an integer outside 1..5 is
not silently skipped: the aggregation aborts at it with a KeyError on
that integer, whatever records follow. -/
theorem floor_out_of_range_aborts (r : Record) (rest : List Record)
    (hq : recQual r = true) (hout : recFloorVal r = 0 ∨ 5 < recFloorVal r) :
    countFloorsByCity (r :: rest) = .error (.keyError (recFloorVal r)) := by
  unfold countFloorsByCity
  simp only [countAux, if_pos hq]
  rw [bumpCity_err [] (recCityStr r) (recFloorVal r) hout]

/-- Witness for amended C1: the record with city A and the fallback floors
field holding 7. -/
theorem floor_out_of_range_witness :
    countFloorsByCity [[("city", some "A"), ("floors", some "7")]] =
      .error (.keyError 7) :=
  floor_out_of_range_aborts [("city", some "A"), ("floors", some "7")] []
    (by decide) (by decide)

/-- C4 (amended): when the aggregation completes, every bucket
CitySummary[c][f] holds exactly the number of records whose city field is
present, non-empty and equal to c and whose floor value (field floor,
falling back to floors when floor is absent or empty) is an all-digit
string of value f; a record whose digit floor value lies outside 1..5 is
never counted, because it aborts the aggregation instead.  A record with
floor value 3a is excluded from the summary yet still participates in
duplicate detection. -/
theorem aggregation_bucket_counts :
    (∀ (data : List Record) (s : CitySummary), countFloorsByCity data = .ok s →
      ∀ (c : String) (f : Nat),
        bucketValue s c f = (data.filter (qualifies c f)).length) ∧
    countFloorsByCity [[("city", some "A"), ("floor", some "3a")]] = .ok [] ∧
    findDuplicates [[("city", some "A"), ("floor", some "3a")],
        [("city", some "A"), ("floor", some "3a")]] =
      [[("city", "A"), ("floor", "3a")]] :=
  ⟨countFloors_ok, by decide, by decide⟩

/-- Witness for amended C4 on a concrete successful aggregation. -/
theorem aggregation_bucket_counts_witness :
    bucketValue [("A", ⟨0, 1, 0, 0, 0⟩)] "A" 2 =
      (([[("city", some "A"), ("floor", some "2")]] : List Record).filter
        (qualifies "A" 2)).length :=
  aggregation_bucket_counts.1 [[("city", some "A"), ("floor", some "2")]]
    [("A", ⟨0, 1, 0, 0, 0⟩)] (by decide) "A" 2

theorem cntOf_counterAdd (acc : List (List (String × String) × Nat))
    (s t : List (String × String)) :
    cntOf (counterAdd acc s) t = cntOf acc t + (if t = s then 1 else 0) := by
  induction acc with
  | nil =>
    by_cases h : s = t
    · subst h
      simp [counterAdd, cntOf]
    · have hne : ¬ t = s := fun hh => h hh.symm
      simp [counterAdd, cntOf, h, hne]
  | cons p rest ih =>
    rcases p with ⟨k, n⟩
    by_cases hks : k = s
    · subst hks
      simp only [counterAdd, if_pos rfl]
      by_cases hkt : k = t
      · subst hkt
        simp [cntOf]
      · have hne : ¬ t = k := fun hh => hkt hh.symm
        simp [cntOf, hkt, hne]
    · simp only [counterAdd, if_neg hks]
      by_cases hkt : k = t
      · subst hkt
        simp [cntOf, fun hh : k = s => hks hh]
      · simp [cntOf, hkt, ih]

theorem keys_counterAdd (acc : List (List (String × String) × Nat))
    (s : List (String × String)) :
    (counterAdd acc s).map Prod.fst =
      if s ∈ acc.map Prod.fst then acc.map Prod.fst
      else acc.map Prod.fst ++ [s] := by
  induction acc with
  | nil => simp [counterAdd]
  | cons p rest ih =>
    rcases p with ⟨k, n⟩
    by_cases hks : k = s
    · subst hks
      simp [counterAdd]
    · simp only [counterAdd, if_neg hks, List.map_cons, ih]
      have hsk : ¬ s = k := fun hh => hks hh.symm
      by_cases hmem : s ∈ rest.map Prod.fst
      · simp [hmem, List.mem_cons, hsk]
      · simp [hmem, List.mem_cons, hsk]

theorem keys_nodup_counterAdd (acc : List (List (String × String) × Nat))
    (s : List (String × String)) (h : (acc.map Prod.fst).Nodup) :
    ((counterAdd acc s).map Prod.fst).Nodup := by
  rw [keys_counterAdd]
  by_cases hmem : s ∈ acc.map Prod.fst
  · simpa [hmem] using h
  · simp [hmem, List.nodup_append, h]

theorem cntOf_foldl (l : List (List (String × String))) :
    ∀ (acc : List (List (String × String) × Nat)) (t : List (String × String)),
    cntOf (List.foldl counterAdd acc l) t = cntOf acc t + l.count t := by
  induction l with
  | nil => intro acc t; simp
  | cons s l ih =>
    intro acc t
    simp only [List.foldl_cons, ih, cntOf_counterAdd, List.count_cons, beq_iff_eq]
    by_cases h : t = s
    · simp only [if_pos h, if_pos h.symm]
      omega
    · have hne : ¬ s = t := fun hh => h hh.symm
      simp only [if_neg h, if_neg hne]
      omega

theorem cntOf_counter (l : List (List (String × String)))
    (t : List (String × String)) : cntOf (counter l) t = l.count t := by
  simpa [cntOf] using cntOf_foldl l [] t

theorem keys_nodup_foldl (l : List (List (String × String))) :
    ∀ (acc : List (List (String × String) × Nat)), (acc.map Prod.fst).Nodup →
    ((List.foldl counterAdd acc l).map Prod.fst).Nodup := by
  induction l with
  | nil => intro acc h; simpa using h
  | cons s l ih =>
    intro acc h
    exact ih (counterAdd acc s) (keys_nodup_counterAdd acc s h)

theorem counter_keys_nodup (l : List (List (String × String))) :
    ((counter l).map Prod.fst).Nodup :=
  keys_nodup_foldl l [] (by simp)

theorem mem_keys_foldl (l : List (List (String × String))) :
    ∀ (acc : List (List (String × String) × Nat)) (t : List (String × String)),
    (t ∈ (List.foldl counterAdd acc l).map Prod.fst) ↔
      t ∈ acc.map Prod.fst ∨ t ∈ l := by
  induction l with
  | nil => intro acc t; simp
  | cons s l ih =>
    intro acc t
    rw [List.foldl_cons, ih, keys_counterAdd]
    by_cases hmem : s ∈ acc.map Prod.fst
    · simp only [if_pos hmem, List.mem_cons]
      constructor
      · rintro (h | h)
        · tauto
        · tauto
      · rintro (h | h | h)
        · tauto
        · subst h; tauto
        · tauto
    · simp only [if_neg hmem, List.mem_append, List.mem_cons,
        List.mem_singleton]
      tauto

theorem pairMem_of_key (ps : List (List (String × String) × Nat))
    (s : List (String × String)) (h : s ∈ ps.map Prod.fst) :
    (s, cntOf ps s) ∈ ps := by
  induction ps with
  | nil => simp at h
  | cons p rest ih =>
    rcases p with ⟨k, n⟩
    by_cases hk : k = s
    · subst hk
      simp [cntOf]
    · have h2 : s ∈ rest.map Prod.fst := by
        rcases List.mem_cons.mp h with h | h
        · exact absurd h.symm hk
        · exact h
      rw [show cntOf ((k, n) :: rest) s = cntOf rest s by simp [cntOf, hk]]
      exact List.mem_cons_of_mem _ (ih h2)

theorem key_val_of_pairMem (ps : List (List (String × String) × Nat))
    (s : List (String × String)) (n : Nat)
    (hnd : (ps.map Prod.fst).Nodup) (h : (s, n) ∈ ps) : cntOf ps s = n := by
  induction ps with
  | nil => cases h
  | cons p rest ih =>
    rcases p with ⟨k, m⟩
    rcases List.mem_cons.mp h with hh | hh
    · rw [Prod.mk.injEq] at hh
      rw [show cntOf ((k, m) :: rest) s = m by simp [cntOf, hh.1.symm]]
      exact hh.2.symm
    · have hks : ¬ k = s := by
        intro hk
        subst hk
        have : k ∈ rest.map Prod.fst :=
          List.mem_map.mpr ⟨(k, n), hh, rfl⟩
        exact (List.nodup_cons.mp (by simpa using hnd)).1 this
      rw [show cntOf ((k, m) :: rest) s = cntOf rest s by simp [cntOf, hks]]
      exact ih (List.nodup_cons.mp (by simpa using hnd)).2 hh

theorem counter_snd (l : List (List (String × String)))
    (p : List (String × String) × Nat) (hp : p ∈ counter l) :
    p.2 = l.count p.1 := by
  have h1 : cntOf (counter l) p.1 = p.2 :=
    key_val_of_pairMem (counter l) p.1 p.2 (counter_keys_nodup l)
      (by rcases p with ⟨a, b⟩; exact hp)
  rw [← h1, cntOf_counter]

/-- C2: the duplicate detector emits exactly one entry per distinct record
content occurring at least twice — its signature list is duplicate-free
and a signature is emitted exactly when it occurs at least twice among
the dataset signatures — and the empty dataset yields the empty result. -/
theorem duplicate_groups_spec (data : List Record) :
    findDuplicates data = (dupSigs data).map dictOfPairs ∧
    (dupSigs data).Nodup ∧
    (∀ s, s ∈ dupSigs data ↔ 2 ≤ (data.map signature).count s) ∧
    findDuplicates ([] : List Record) = [] := by
  refine ⟨?_, ?_, ?_, rfl⟩
  · unfold findDuplicates dupSigs
    rw [List.map_map]
    rfl
  · unfold dupSigs
    have hsub : ((counter (data.map signature)).filter fun p => 1 < p.2).Sublist
        (counter (data.map signature)) := List.filter_sublist _
    exact (counter_keys_nodup _).sublist (hsub.map Prod.fst)
  · intro s
    constructor
    · intro hs
      unfold dupSigs at hs
      rcases List.mem_map.mp hs with ⟨p, hp, hps⟩
      rcases List.mem_filter.mp hp with ⟨hpmem, hplt⟩
      have hval : p.2 = (data.map signature).count p.1 :=
        counter_snd (data.map signature) p hpmem
      have hlt : 1 < p.2 := of_decide_eq_true hplt
      rw [← hps, ← hval]
      omega
    · intro hc
      have hmem : s ∈ data.map signature := by
        by_contra hnot
        rw [List.count_eq_zero_of_not_mem hnot] at hc
        omega
      have hkeys : s ∈ (counter (data.map signature)).map Prod.fst := by
        have := mem_keys_foldl (data.map signature) [] s
        unfold counter
        simp only [this]
        simpa using hmem
      have hpair := pairMem_of_key _ _ hkeys
      have hcnt := cntOf_counter (data.map signature) s
      unfold dupSigs
      refine List.mem_map.mpr ⟨(s, cntOf (counter (data.map signature)) s), ?_, rfl⟩
      refine List.mem_filter.mpr ⟨hpair, ?_⟩
      rw [hcnt]
      exact decide_eq_true (by omega)

/-- Witness for C2: with two equal records the shared signature is in the
emitted set. -/
theorem duplicate_groups_witness :
    signature [("city", some "A")] ∈
      dupSigs [[("city", some "A")], [("city", some "A")]] :=
  ((duplicate_groups_spec [[("city", some "A")], [("city", some "A")]]).2.2.1
    (signature [("city", some "A")])).mpr (by decide)

theorem firstSeenAux_congr : ∀ (l : List (List (String × String)))
    (seen1 seen2 : List (List (String × String))),
    (∀ t, t ∈ seen1 ↔ t ∈ seen2) → firstSeenAux seen1 l = firstSeenAux seen2 l
  | [], _, _, _ => rfl
  | s :: l, seen1, seen2, h => by
    simp only [firstSeenAux]
    by_cases hs : s ∈ seen1
    · rw [if_pos hs, if_pos ((h s).mp hs)]
      exact firstSeenAux_congr l seen1 seen2 h
    · rw [if_neg hs, if_neg (fun hh => hs ((h s).mpr hh))]
      congr 1
      exact firstSeenAux_congr l (s :: seen1) (s :: seen2) (by
        intro t
        simp only [List.mem_cons]
        rw [h t])

theorem keys_foldl_firstSeen : ∀ (l : List (List (String × String)))
    (acc : List (List (String × String) × Nat)),
    (List.foldl counterAdd acc l).map Prod.fst =
      acc.map Prod.fst ++ firstSeenAux (acc.map Prod.fst) l
  | [], acc => by simp [firstSeenAux]
  | s :: l, acc => by
    rw [List.foldl_cons, keys_foldl_firstSeen l (counterAdd acc s), keys_counterAdd]
    by_cases hmem : s ∈ acc.map Prod.fst
    · rw [if_pos hmem]
      simp only [firstSeenAux, if_pos hmem]
    · rw [if_neg hmem]
      simp only [firstSeenAux, if_neg hmem]
      rw [List.append_assoc, List.singleton_append]
      congr 2
      exact firstSeenAux_congr l _ _ (by
        intro t
        simp [List.mem_append, or_comm])

theorem counter_keys_firstSeen (l : List (List (String × String))) :
    (counter l).map Prod.fst = firstSeen l := by
  have := keys_foldl_firstSeen l []
  simpa [firstSeen] using this

theorem filter_map_fst (ps : List (List (String × String) × Nat))
    (g : List (String × String) → Nat) (h : ∀ p ∈ ps, p.2 = g p.1) :
    ((ps.filter fun p => 1 < p.2).map Prod.fst) =
      (ps.map Prod.fst).filter fun s => 1 < g s := by
  induction ps with
  | nil => rfl
  | cons p rest ih =>
    have hp : p.2 = g p.1 := h p (by simp)
    have hrest : ∀ q ∈ rest, q.2 = g q.1 := fun q hq => h q (by simp [hq])
    simp only [List.filter_cons, List.map_cons]
    by_cases hlt : 1 < p.2
    · rw [if_pos (decide_eq_true hlt), List.map_cons, ih hrest,
        if_pos (decide_eq_true (hp ▸ hlt))]
    · rw [if_neg (fun hh => hlt (of_decide_eq_true hh)), ih hrest,
        if_neg (fun hh => hlt (hp ▸ of_decide_eq_true hh))]

/-- C10: the duplicate detector emits its groups in first-seen order: the
output is exactly the distinct dataset signatures in order of first
occurrence, kept when they occur at least twice, rebuilt into dicts. -/
theorem duplicates_first_seen_order (data : List Record) :
    findDuplicates data =
      ((firstSeen (data.map signature)).filter fun s =>
        2 ≤ (data.map signature).count s).map dictOfPairs := by
  have hpred : (fun s : List (String × String) =>
      decide (2 ≤ (data.map signature).count s)) =
      fun s => decide (1 < (data.map signature).count s) := by
    funext s
    exact decide_eq_decide.mpr (by omega)
  unfold findDuplicates
  simp only [hpred]
  rw [← counter_keys_firstSeen, ← filter_map_fst _ _ (counter_snd (data.map signature)),
    List.map_map]
  rfl

/-- C3: two records carrying the same pairs of field name and field value
— in any field order, with None equal to the literal string null — get the
same signature, and a dataset of the two yields them as a single
duplicate group. -/
theorem signature_order_independent (r1 r2 : Record)
    (h : (r1.map normalizePair).Perm (r2.map normalizePair)) :
    signature r1 = signature r2 ∧
    findDuplicates [r1, r2] = [dictOfPairs (signature r1)] := by
  have hs : signature r1 = signature r2 := by
    have hsort1 : List.Sorted pairLe (signature r1) :=
      List.sorted_insertionSort pairLe _
    have hsort2 : List.Sorted pairLe (signature r2) :=
      List.sorted_insertionSort pairLe _
    have hperm : (signature r1).Perm (signature r2) :=
      ((List.perm_insertionSort pairLe _).trans h).trans
        (List.perm_insertionSort pairLe _).symm
    exact List.eq_of_perm_of_sorted hperm hsort1 hsort2
  refine ⟨hs, ?_⟩
  unfold findDuplicates counter
  simp [← hs, counterAdd, List.filter]

/-- Witness for C3 with None on one side and the literal null on the
other, fields in swapped order. -/
theorem signature_order_independent_witness :
    signature [("b", some "2"), ("a", none)] =
      signature [("a", some "null"), ("b", some "2")] ∧
    findDuplicates [[("b", some "2"), ("a", none)],
        [("a", some "null"), ("b", some "2")]] =
      [dictOfPairs (signature [("b", some "2"), ("a", none)])] :=
  signature_order_independent _ _ (List.Perm.swap ("a", "null") ("b", "2") [])

theorem cleanPairs_canonical : ∀ ps : List (Option String × RawVal),
    (∃ out, cleanPairs ps = .ok out) ∨
    cleanPairs ps = .error (.runtimeError (csvErrPre ++ noneStripMsg))
  | [] => Or.inl ⟨[], rfl⟩
  | (some k, .cell v) :: rest => by
    rcases cleanPairs_canonical rest with ⟨out, hout⟩ | herr
    · exact Or.inl ⟨(pyStrip k, pyStrip v) :: out, by simp [cleanPairs, hout]⟩
    · exact Or.inr (by simp [cleanPairs, herr])
  | (some _, .noneV) :: _ => Or.inr rfl
  | (some _, .extra _) :: _ => Or.inr rfl
  | (none, _) :: _ => Or.inr rfl

theorem rawRow_mismatch : ∀ (hs vs : List String), vs.length ≠ hs.length →
    cleanPairs (rawRow hs vs) = .error (.runtimeError (csvErrPre ++ noneStripMsg))
  | [], [], h => absurd rfl h
  | _ :: _, [], _ => rfl
  | [], _ :: _, _ => rfl
  | h :: hs, v :: vs, hlen => by
    have hlen2 : vs.length ≠ hs.length := fun hh => hlen (by simp [hh])
    simp [rawRow, cleanPairs, rawRow_mismatch hs vs hlen2]

theorem cleanRow_mismatch (header row : List String) (h : row.length ≠ header.length) :
    cleanRow header row = .error (.runtimeError (csvErrPre ++ noneStripMsg)) := by
  unfold cleanRow
  rw [rawRow_mismatch header row h]

theorem readRows_ragged : ∀ (rows : List (List String)) (header r : List String),
    r ∈ rows → r ≠ [] → r.length ≠ header.length →
    readRows header rows = .error (.runtimeError (csvErrPre ++ noneStripMsg))
  | [], _, _, hmem, _, _ => absurd hmem (List.not_mem_nil _)
  | row :: rest, header, r, hmem, hne, hlen => by
    simp only [readRows]
    by_cases hrow : row.isEmpty = true
    · rw [if_pos hrow]
      have hr : r ∈ rest := by
        rcases List.mem_cons.mp hmem with h | h
        · subst h
          exact absurd (List.isEmpty_iff.mp hrow) hne
        · exact h
      exact readRows_ragged rest header r hr hne hlen
    · rw [if_neg hrow]
      by_cases hreq : r = row
      · subst hreq
        rw [cleanRow_mismatch header r hlen]
      · have hr : r ∈ rest := by
          rcases List.mem_cons.mp hmem with h | h
          · exact absurd h hreq
          · exact h
        cases hc : cleanRow header row with
        | error e =>
          have he : e = .runtimeError (csvErrPre ++ noneStripMsg) := by
            rcases cleanPairs_canonical (rawRow header row) with ⟨out, hout⟩ | herr
            · unfold cleanRow at hc
              rw [hout] at hc
              cases hc
            · unfold cleanRow at hc
              rw [herr] at hc
              cases hc
              rfl
          rw [he]
        | ok cr =>
          rw [readRows_ragged rest header r hr hne hlen]

/-- C5 (amended): a data row whose column count differs from the header
does not yield a lenient record: DictReader pads it with None (short row)
or a None overflow key (long row), the strip cleanup raises on that None,
and the whole CSV read fails with the wrapped RuntimeError, whichever
rows surround it. -/
theorem ragged_csv_fails (header : List String) (rows : List (List String))
    (r : List String) (hmem : r ∈ rows) (hne : r ≠ [])
    (hlen : r.length ≠ header.length) :
    readCsvFile (.rows (header :: rows)) =
      .error (.runtimeError (csvErrPre ++ noneStripMsg)) := by
  simp only [readCsvFile]
  exact readRows_ragged rows header r hmem hne hlen

/-- Witness for amended C5 on a long row. -/
theorem ragged_csv_fails_witness :
    readCsvFile (.rows [["city", "floor"], ["A", "1", "x"]]) =
      .error (.runtimeError (csvErrPre ++ noneStripMsg)) :=
  ragged_csv_fails ["city", "floor"] [["A", "1", "x"]] ["A", "1", "x"]
    (by simp) (by decide) (by decide)
